import Mathlib

/-!
Verification development for the streaming translation gateway.

This file shallowly embeds the parts of the program that the checked
properties speak about:

* `app/core/token_manager.py` — the credential pool (`TokenManager`);
* `app/core/openai.py` — the streaming orchestrator `stream_response`
  (retry loop, SSE byte-buffer loop, phase handling, terminal markers);
* `app/core/response_handlers.py` — `ResponseHandler._call_upstream`;
* `app/core/zai_transformer.py` — the tools-field decision in
  `transform_request_in`.

Machine timestamps are modelled as natural numbers passed explicitly.
-/

namespace Gateway

/-! ## String primitives

Python's `str.strip`, `str.startswith`, `sub in s` and `s.split(sub)[-1]`
are embedded as structurally recursive functions over the character list
of a `String`, so that every definition evaluates inside the kernel.
`afterLastSeg` returns the suffix after the last occurrence of the
separator; for the border-free separators this program uses
(`"</summary>\n>"` and `"</details>\n"`, whose occurrences can never
overlap) this coincides with Python's `split(sep)[-1]`. -/

/-- The characters Python's `str.strip()` removes. -/
def isPySpace (c : Char) : Bool :=
  c == ' ' || c == '\t' || c == '\n' || c == '\r' || c == '\x0b' || c == '\x0c'

/-- Python `s.strip()`. -/
def pyStrip (s : String) : String :=
  ⟨((s.data.dropWhile isPySpace).reverse.dropWhile isPySpace).reverse⟩

/-- Python `s.startswith(pre)`. -/
def strStarts (s pre : String) : Bool := pre.data.isPrefixOf s.data

/-- Does `sep` occur as a contiguous segment? -/
def containsSeg (sep : List Char) : List Char → Bool
  | [] => sep == []
  | c :: cs => sep.isPrefixOf (c :: cs) || containsSeg sep cs

/-- Suffix after the last occurrence of `sep` (the whole list when `sep`
does not occur). -/
def afterLastSeg (sep : List Char) : List Char → List Char
  | [] => []
  | c :: cs =>
    if containsSeg sep cs then afterLastSeg sep cs
    else if sep.isPrefixOf (c :: cs) then (c :: cs).drop sep.length
    else c :: cs

/-- Python `sub in s`. -/
def strContains (s sub : String) : Bool := containsSeg sub.data s.data

/-- Python `s.split(sub)[-1]` for the border-free separators used here. -/
def strAfterLast (s sub : String) : String := ⟨afterLastSeg sub.data s.data⟩

/-! ## Credential pool: `app/core/token_manager.py`

`TokenInfo` mirrors the dataclass of the same name (line 27): a token
string, a failure counter, an active flag and two optional timestamps.
-/

structure TokenInfo where
  token : String
  failure_count : Nat
  is_active : Bool
  last_failure_time : Option Nat
  last_used_time : Option Nat
deriving DecidableEq, Repr

/-- A freshly constructed `TokenInfo(token=token)` with the dataclass
defaults (line 27-34 of token_manager.py). -/
def freshToken (tok : String) : TokenInfo :=
  ⟨tok, 0, true, none, none⟩

/-- Default used for list indexing that is always in range. -/
def dfltTok : TokenInfo := freshToken ""

/-- Mutable state of a `TokenManager` (lines 52-54): token list, rotation
cursor and last reload time.  The configuration values `max_failures` and
the current time are passed to the operations explicitly. -/
structure TMState where
  tokens : List TokenInfo
  current_index : Nat
  last_reload_time : Nat
deriving DecidableEq, Repr

/-- `mark_token_failed` body (lines 188-201): walk the list, update the
first entry whose token matches (`break` after the first hit): increment
`failure_count`, stamp `last_failure_time`, and deactivate iff the new
count reaches `max_failures`. -/
def markFailedList (maxF now : Nat) (tok : String) : List TokenInfo → List TokenInfo
  | [] => []
  | t :: ts =>
    if t.token = tok then
      { t with
        failure_count := t.failure_count + 1,
        last_failure_time := some now,
        is_active := if maxF ≤ t.failure_count + 1 then false else t.is_active } :: ts
    else
      t :: markFailedList maxF now tok ts

/-- `TokenManager.mark_token_failed` (lines 188-201). -/
def mark_token_failed (maxF : Nat) (st : TMState) (tok : String) (now : Nat) : TMState :=
  { st with tokens := markFailedList maxF now tok st.tokens }

/-- `mark_token_success` body (lines 203-212): first matching entry gets
`failure_count = 0` and `is_active = True`; `break` after the first hit. -/
def markSuccessList (tok : String) : List TokenInfo → List TokenInfo
  | [] => []
  | t :: ts =>
    if t.token = tok then
      { t with failure_count := 0, is_active := true } :: ts
    else
      t :: markSuccessList tok ts

/-- `TokenManager.mark_token_success` (lines 203-212). -/
def mark_token_success (st : TMState) (tok : String) : TMState :=
  { st with tokens := markSuccessList tok st.tokens }

/-- `active_tokens = [i for i, t in enumerate(self.tokens) if t.is_active]`
(line 153). -/
def activeIdx (ts : List TokenInfo) : List Nat :=
  (List.range ts.length).filter (fun i => (ts.getD i dfltTok).is_active)

/-- The amnesty applied to one token when no token is active
(lines 158-160): `is_active = True`, `failure_count = 0`. -/
def amnesty (t : TokenInfo) : TokenInfo :=
  { t with is_active := true, failure_count := 0 }

/-- `TokenManager.get_next_token` (lines 141-186), after the optional
reload step (the reload itself is modelled separately as `load_tokens`).
Empty pool returns `none`; if no token is active every token is
reactivated with a zero failure count (amnesty, lines 155-161); then the
round-robin scan (lines 167-183) picks the first index
`(current_index + i) % len` that is active, advances the cursor past it,
stamps `last_used_time` and returns the token string.  The source's
`while attempts < max_attempts` wrapper repeats the identical scan, so a
failed scan stays failed; the model runs the scan once and returns `none`
on failure, keeping the (possibly amnestied) token list. -/
def get_next_token (st : TMState) (now : Nat) : TMState × Option String :=
  if st.tokens.isEmpty then (st, none)
  else
    let len := st.tokens.length
    let act0 := activeIdx st.tokens
    let toks := if act0.isEmpty then st.tokens.map amnesty else st.tokens
    let act := if act0.isEmpty then List.range len else act0
    match (List.range len).find? (fun i => act.contains ((st.current_index + i) % len)) with
    | some i =>
      let ti := (st.current_index + i) % len
      let chosen := toks.getD ti dfltTok
      ({ st with
          tokens := toks.set ti { chosen with last_used_time := some now },
          current_index := (ti + 1) % len },
        some chosen.token)
    | none => ({ st with tokens := toks }, none)

/-- First phase of `_load_tokens` (lines 70-78): for each file line, strip
it, skip empty lines and `#` comments, and keep the existing `TokenInfo`
for a token already in the old pool (preserving its counters), otherwise
create a fresh one. -/
def mergeLines (old : List TokenInfo) : List String → List TokenInfo
  | [] => []
  | line :: rest =>
    let tok := pyStrip line
    if tok == "" || strStarts tok "#" then
      mergeLines old rest
    else
      (match old.find? (fun t => t.token == tok) with
        | some t => t
        | none => freshToken tok) :: mergeLines old rest

/-- Second phase of `_load_tokens` (lines 86-104): append each backup
token that is not already in the new list, reusing the old pool's entry
when the token existed before. -/
def mergeBackup (old : List TokenInfo) : List TokenInfo → List String → List TokenInfo
  | acc, [] => acc
  | acc, b :: rest =>
    if (acc.find? (fun t => t.token == b)).isSome then
      mergeBackup old acc rest
    else
      mergeBackup old
        (acc ++ [(match old.find? (fun t => t.token == b) with
          | some t => t
          | none => freshToken b)]) rest

/-- `TokenManager._load_tokens` (lines 60-135).  `fileLines` is `none`
when the token file does not exist, otherwise its lines; `backupTokens`
is the already-split list of `BACKUP_TOKEN` values.  If the merge
produces no tokens, the fallback (lines 109-118) builds fresh entries
from the backup list alone.  A non-empty result replaces the pool,
resets an out-of-bounds cursor and stamps `last_reload_time`; an empty
result leaves the whole state unchanged (lines 120-132). -/
def fileMerged (st : TMState) (fileLines : Option (List String)) : List TokenInfo :=
  match fileLines with
  | some ls => mergeLines st.tokens ls
  | none => []

/-- The token list `_load_tokens` ends up with: file lines merged with the
old pool, backup tokens appended, and the backup-only fallback
(lines 109-118) when the merge produced nothing. -/
def mergedTokens (st : TMState) (fileLines : Option (List String))
    (backupTokens : List String) : List TokenInfo :=
  let nt2 := mergeBackup st.tokens (fileMerged st fileLines) backupTokens
  if nt2.isEmpty then backupTokens.map freshToken else nt2

def load_tokens (st : TMState) (fileLines : Option (List String))
    (backupTokens : List String) (now : Nat) : TMState :=
  let nt := mergedTokens st fileLines backupTokens
  if nt.isEmpty then st
  else
    { tokens := nt,
      current_index := if nt.length ≤ st.current_index then 0 else st.current_index,
      last_reload_time := now }

/-- `TokenManager.reset_all_tokens` (lines 248-255). -/
def reset_all_tokens (st : TMState) : TMState :=
  { st with tokens := st.tokens.map (fun t =>
      { t with is_active := true, failure_count := 0, last_failure_time := none }) }

/-- The state of a freshly constructed `TokenManager` before its initial
`_load_tokens` call (lines 52-54). -/
def initialTMState : TMState := ⟨[], 0, 0⟩

/-- The pool invariant of the specification: a credential whose
consecutive failure count has reached `max_failures` is inactive. -/
def PoolInv (maxF : Nat) (st : TMState) : Prop :=
  ∀ t ∈ st.tokens, maxF ≤ t.failure_count → t.is_active = false

instance (maxF : Nat) (st : TMState) : Decidable (PoolInv maxF st) :=
  inferInstanceAs (Decidable (∀ t ∈ st.tokens, maxF ≤ t.failure_count → t.is_active = false))

/-! ### Pool lemmas -/

theorem markFailedList_inv (maxF now : Nat) (tok : String) (l : List TokenInfo)
    (h : ∀ t ∈ l, maxF ≤ t.failure_count → t.is_active = false) :
    ∀ t ∈ markFailedList maxF now tok l, maxF ≤ t.failure_count → t.is_active = false := by
  induction l with
  | nil => simp [markFailedList]
  | cons a l ih =>
    intro t ht
    simp only [markFailedList] at ht
    by_cases ha : a.token = tok
    · rw [if_pos ha] at ht
      rcases List.mem_cons.mp ht with h1 | h1
      · subst h1
        intro hle
        simp only [if_pos hle]
      · exact h t (List.mem_cons_of_mem _ h1)
    · rw [if_neg ha] at ht
      rcases List.mem_cons.mp ht with h1 | h1
      · subst h1
        exact h t (List.mem_cons_self _ _)
      · exact ih (fun u hu => h u (List.mem_cons_of_mem _ hu)) t h1

theorem markFailedList_notin (maxF now : Nat) (tok : String) (l : List TokenInfo)
    (h : ∀ t ∈ l, t.token ≠ tok) : markFailedList maxF now tok l = l := by
  induction l with
  | nil => rfl
  | cons a l ih =>
    simp only [markFailedList, if_neg (h a (List.mem_cons_self _ _))]
    exact congrArg _ (ih fun u hu => h u (List.mem_cons_of_mem _ hu))

theorem markSuccessList_inv (maxF : Nat) (hm : 0 < maxF) (tok : String) (l : List TokenInfo)
    (h : ∀ t ∈ l, maxF ≤ t.failure_count → t.is_active = false) :
    ∀ t ∈ markSuccessList tok l, maxF ≤ t.failure_count → t.is_active = false := by
  induction l with
  | nil => simp [markSuccessList]
  | cons a l ih =>
    intro t ht
    simp only [markSuccessList] at ht
    by_cases ha : a.token = tok
    · rw [if_pos ha] at ht
      rcases List.mem_cons.mp ht with h1 | h1
      · subst h1
        intro hle
        exact absurd (Nat.le_trans hm hle) (by simp)
      · exact h t (List.mem_cons_of_mem _ h1)
    · rw [if_neg ha] at ht
      rcases List.mem_cons.mp ht with h1 | h1
      · subst h1
        exact h t (List.mem_cons_self _ _)
      · exact ih (fun u hu => h u (List.mem_cons_of_mem _ hu)) t h1

theorem markSuccessList_notin (tok : String) (l : List TokenInfo)
    (h : ∀ t ∈ l, t.token ≠ tok) : markSuccessList tok l = l := by
  induction l with
  | nil => rfl
  | cons a l ih =>
    simp only [markSuccessList, if_neg (h a (List.mem_cons_self _ _))]
    exact congrArg _ (ih fun u hu => h u (List.mem_cons_of_mem _ hu))

theorem mergeLines_mem (old : List TokenInfo) (ls : List String) :
    ∀ t ∈ mergeLines old ls, t ∈ old ∨ ∃ s, t = freshToken s := by
  induction ls with
  | nil => simp [mergeLines]
  | cons line rest ih =>
    intro t ht
    simp only [mergeLines] at ht
    split at ht
    · exact ih t ht
    · rcases List.mem_cons.mp ht with h1 | h1
      · revert h1
        split
        · next u hu =>
          intro h1
          exact Or.inl (h1 ▸ List.mem_of_find?_eq_some hu)
        · intro h1
          exact Or.inr ⟨_, h1⟩
      · exact ih t h1

theorem mergeBackup_mem (old : List TokenInfo) (acc : List TokenInfo) (bs : List String) :
    ∀ t ∈ mergeBackup old acc bs,
      t ∈ acc ∨ t ∈ old ∨ ∃ s, t = freshToken s := by
  induction bs generalizing acc with
  | nil => exact fun t ht => Or.inl ht
  | cons b rest ih =>
    intro t ht
    simp only [mergeBackup] at ht
    split at ht
    · exact ih acc t ht
    · rcases ih _ t ht with h1 | h1
      · rcases List.mem_append.mp h1 with h2 | h2
        · exact Or.inl h2
        · rcases List.mem_singleton.mp h2 with h3
          subst h3
          split
          · next u hu => exact Or.inr (Or.inl (List.mem_of_find?_eq_some hu))
          · exact Or.inr (Or.inr ⟨_, rfl⟩)
      · exact Or.inr h1

/-- Every credential in a reloaded pool either comes from the old pool
unchanged (its health counters preserved) or is a brand-new entry with
the `TokenInfo` defaults. -/
theorem mergedTokens_mem (st : TMState) (fl : Option (List String)) (bk : List String) :
    ∀ t ∈ mergedTokens st fl bk, t ∈ st.tokens ∨ ∃ s, t = freshToken s := by
  intro t ht
  simp only [mergedTokens] at ht
  split at ht
  · rcases List.mem_map.mp ht with ⟨s, _, hs⟩
    exact Or.inr ⟨s, hs.symm⟩
  · rcases mergeBackup_mem st.tokens _ bk t ht with h1 | h1 | h1
    · cases fl with
      | none => simp [fileMerged] at h1
      | some ls =>
        rcases mergeLines_mem st.tokens ls t h1 with h2 | h2
        · exact Or.inl h2
        · exact Or.inr h2
    · exact Or.inl h1
    · exact Or.inr h1

theorem load_tokens_mem (st : TMState) (fl : Option (List String)) (bk : List String)
    (now : Nat) :
    ∀ t ∈ (load_tokens st fl bk now).tokens, t ∈ st.tokens ∨ ∃ s, t = freshToken s := by
  intro t ht
  simp only [load_tokens] at ht
  split at ht
  · exact Or.inl ht
  · exact mergedTokens_mem st fl bk t ht

theorem activeIdx_lt (ts : List TokenInfo) : ∀ j ∈ activeIdx ts, j < ts.length := by
  intro j hj
  exact List.mem_range.mp (List.mem_of_mem_filter hj)

theorem activeIdx_nil_of_inactive (ts : List TokenInfo)
    (h : ∀ t ∈ ts, t.is_active = false) : activeIdx ts = [] := by
  simp only [activeIdx]
  rw [List.filter_eq_nil_iff]
  intro i hi
  have hlt := List.mem_range.mp hi
  rw [List.getD_eq_getElem?_getD, List.getElem?_eq_getElem hlt]
  simp [h _ (List.getElem_mem hlt)]

/-- Any index of the rotation is reachable by scanning forward from any
cursor: for `j < len` there is an `i < len` with `(c + i) % len = j`. -/
theorem exists_rot_index (len c j : Nat) (hj : j < len) :
    ∃ i, i < len ∧ (c + i) % len = j := by
  have hlen : 0 < len := Nat.lt_of_le_of_lt (Nat.zero_le j) hj
  refine ⟨(len + j - c % len) % len, Nat.mod_lt _ hlen, ?_⟩
  have h1 : c % len < len := Nat.mod_lt _ hlen
  have h2 := Nat.div_add_mod c len
  rw [Nat.add_mod_mod]
  have h3 : c + (len + j - c % len) = len * (c / len) + (len + j) := by omega
  rw [h3, Nat.mul_add_mod, Nat.add_mod_left]
  exact Nat.mod_eq_of_lt hj

theorem find?_rot_isSome (len c : Nat) (act : List Nat) (hne : act ≠ [])
    (hsub : ∀ j ∈ act, j < len) :
    ((List.range len).find? (fun i => act.contains ((c + i) % len))).isSome := by
  rcases List.exists_mem_of_ne_nil act hne with ⟨j, hj⟩
  rcases exists_rot_index len c j (hsub j hj) with ⟨i, hi, hij⟩
  rw [List.find?_isSome]
  refine ⟨i, List.mem_range.mpr hi, ?_⟩
  rw [hij]
  exact List.elem_eq_true_of_mem hj

/-- An element picked out of a list by `getD` with an always-benign
default is a member or the default itself. -/
theorem getD_mem_or_dflt (l : List TokenInfo) (n : Nat) (d : TokenInfo) :
    l.getD n d ∈ l ∨ l.getD n d = d := by
  by_cases hlt : n < l.length
  · left
    rw [List.getD_eq_getElem?_getD, List.getElem?_eq_getElem hlt]
    exact List.getElem_mem hlt
  · right
    rw [List.getD_eq_getElem?_getD, List.getElem?_eq_none (Nat.le_of_not_lt hlt)]
    rfl


/-- The token list `get_next_token` works on after the optional amnesty
(lines 151-161 of the model, lines 153-161 of the source). -/
def toksAfter (st : TMState) : List TokenInfo :=
  if (activeIdx st.tokens).isEmpty then st.tokens.map amnesty else st.tokens

/-- `get_next_token` either leaves the state alone (empty pool), or its
resulting token list is the post-amnesty list, possibly with one entry
re-stamped with `last_used_time`. -/
theorem get_next_token_cases (st : TMState) (now : Nat) :
    ((get_next_token st now).1 = st ∧ (get_next_token st now).2 = none) ∨
    (get_next_token st now).1.tokens = toksAfter st ∨
    ∃ n, (get_next_token st now).1.tokens
        = (toksAfter st).set n
            { (toksAfter st).getD n dfltTok with last_used_time := some now } := by
  unfold get_next_token toksAfter
  dsimp only
  split
  · exact Or.inl ⟨rfl, rfl⟩
  · split
    · next i hfind =>
      exact Or.inr (Or.inr ⟨(st.current_index + i) % st.tokens.length, rfl⟩)
    · exact Or.inr (Or.inl rfl)

theorem toksAfter_inv (maxF : Nat) (hm : 0 < maxF) (st : TMState) (h : PoolInv maxF st) :
    ∀ t ∈ toksAfter st, maxF ≤ t.failure_count → t.is_active = false := by
  unfold toksAfter
  split
  · intro t ht hle
    rcases List.mem_map.mp ht with ⟨u, _, hu⟩
    subst hu
    exact absurd (Nat.le_trans hm hle) (by simp [amnesty])
  · exact h

theorem dfltTok_inv (maxF : Nat) (hm : 0 < maxF) :
    maxF ≤ dfltTok.failure_count → dfltTok.is_active = false := by
  intro hle
  exact absurd (Nat.le_trans hm hle) (by simp [dfltTok, freshToken])

theorem get_next_token_inv (maxF : Nat) (hm : 0 < maxF) (st : TMState) (now : Nat)
    (h : PoolInv maxF st) : PoolInv maxF (get_next_token st now).1 := by
  have htoks := toksAfter_inv maxF hm st h
  rcases get_next_token_cases st now with ⟨h1, _⟩ | h1 | ⟨n, h1⟩
  · rw [h1]
    exact h
  · intro t ht
    rw [h1] at ht
    exact htoks t ht
  · intro t ht
    rw [h1] at ht
    rcases List.mem_or_eq_of_mem_set ht with h2 | h2
    · exact htoks t h2
    · subst h2
      intro hle
      rcases getD_mem_or_dflt (toksAfter st) n dfltTok with h3 | h3
      · exact htoks ((toksAfter st).getD n dfltTok) h3 hle
      · rw [h3] at hle ⊢
        exact dfltTok_inv maxF hm hle

/-- C5 auxiliary: the invariant for the pool state produced by a reload. -/
theorem load_tokens_inv (maxF : Nat) (hm : 0 < maxF) (st : TMState)
    (fl : Option (List String)) (bk : List String) (now : Nat)
    (h : PoolInv maxF st) : PoolInv maxF (load_tokens st fl bk now) := by
  intro t ht hle
  rcases load_tokens_mem st fl bk now t ht with h1 | ⟨s, h1⟩
  · exact h t h1 hle
  · subst h1
    exact absurd (Nat.le_trans hm hle) (by simp [freshToken])

/-- C5: the pool invariant "a credential with `consecutiveFailures ≥
maxFailures` is inactive" holds for a freshly loaded pool and is
preserved by `mark_token_failed`, `mark_token_success`,
`get_next_token` (including its amnesty), `_load_tokens` (reload) and
`reset_all_tokens`, for any positive failure threshold. -/
theorem c5_pool_invariant (maxF : Nat) (hm : 0 < maxF) :
    (∀ fl bk now, PoolInv maxF (load_tokens initialTMState fl bk now)) ∧
    (∀ st, PoolInv maxF st →
      (∀ tok now, PoolInv maxF (mark_token_failed maxF st tok now)) ∧
      (∀ tok, PoolInv maxF (mark_token_success st tok)) ∧
      (∀ now, PoolInv maxF (get_next_token st now).1) ∧
      (∀ fl bk now, PoolInv maxF (load_tokens st fl bk now)) ∧
      PoolInv maxF (reset_all_tokens st)) := by
  constructor
  · intro fl bk now
    exact load_tokens_inv maxF hm initialTMState fl bk now
      (by simp [PoolInv, initialTMState])
  · intro st h
    refine ⟨?_, ?_, ?_, ?_, ?_⟩
    · intro tok now
      exact markFailedList_inv maxF now tok st.tokens h
    · intro tok
      exact markSuccessList_inv maxF hm tok st.tokens h
    · intro now
      exact get_next_token_inv maxF hm st now h
    · intro fl bk now
      exact load_tokens_inv maxF hm st fl bk now h
    · intro t ht hle
      rcases List.mem_map.mp ht with ⟨u, _, hu⟩
      subst hu
      exact absurd (Nat.le_trans hm hle) (by simp)

/-- Witness for C5 at the default threshold `TOKEN_MAX_FAILURES = 3` and a
concrete two-credential pool. -/
theorem c5_pool_invariant_witness :
    PoolInv 3 (mark_token_failed 3
      ⟨[⟨"a", 2, true, none, none⟩, ⟨"b", 0, true, none, none⟩], 0, 0⟩ "a" 7) :=
  ((c5_pool_invariant 3 (by decide)).2
    ⟨[⟨"a", 2, true, none, none⟩, ⟨"b", 0, true, none, none⟩], 0, 0⟩ (by decide)).1 "a" 7

/-- `get_next_token` succeeds on every non-empty pool. -/
theorem get_next_token_isSome (st : TMState) (now : Nat) (hne : st.tokens ≠ []) :
    (get_next_token st now).2.isSome = true := by
  have hlen : 0 < st.tokens.length := List.length_pos.mpr hne
  unfold get_next_token
  rw [if_neg (by simpa using hne)]
  dsimp only
  by_cases hA : (activeIdx st.tokens).isEmpty
  · have hfind := find?_rot_isSome st.tokens.length st.current_index
      (List.range st.tokens.length)
      (by simp only [ne_eq, List.range_eq_nil]
          omega)
      (fun j hj => List.mem_range.mp hj)
    simp only [hA, if_true]
    rcases Option.isSome_iff_exists.mp hfind with ⟨i, hi⟩
    rw [hi]
    rfl
  · have hfind := find?_rot_isSome st.tokens.length st.current_index
      (activeIdx st.tokens)
      (by simpa [List.isEmpty_iff] using hA)
      (activeIdx_lt st.tokens)
    simp only [hA, Bool.false_eq_true, if_false]
    rcases Option.isSome_iff_exists.mp hfind with ⟨i, hi⟩
    rw [hi]
    rfl

theorem healthy_of_mem_amnesty (l : List TokenInfo) :
    ∀ t ∈ l.map amnesty, (t.is_active && t.failure_count == 0) = true := by
  intro t ht
  rcases List.mem_map.mp ht with ⟨u, _, hu⟩
  subst hu
  simp [amnesty]

/-- C6: `get_next_token` returns `none` exactly on the empty pool, and on
a non-empty all-inactive pool the amnesty reactivates every credential,
zeroes every failure count, and a credential is returned. -/
theorem c6_amnesty (st : TMState) (now : Nat) :
    ((get_next_token st now).2 = none ↔ st.tokens = []) ∧
    (st.tokens ≠ [] → (∀ t ∈ st.tokens, t.is_active = false) →
      ((get_next_token st now).1.tokens.all
          fun t => t.is_active && t.failure_count == 0) = true ∧
        (get_next_token st now).2.isSome = true) := by
  constructor
  · constructor
    · intro h2
      by_contra hne
      have hsome := get_next_token_isSome st now hne
      rw [h2] at hsome
      simp at hsome
    · intro h2
      unfold get_next_token
      rw [if_pos (by simp [h2])]
  · intro hne hina
    refine ⟨?_, get_next_token_isSome st now hne⟩
    have hAm : toksAfter st = st.tokens.map amnesty := by
      unfold toksAfter
      rw [activeIdx_nil_of_inactive st.tokens hina]
      simp
    rcases get_next_token_cases st now with ⟨_, h2⟩ | h1 | ⟨n, h1⟩
    · have hsome := get_next_token_isSome st now hne
      rw [h2] at hsome
      simp at hsome
    · rw [h1, hAm, List.all_eq_true]
      exact healthy_of_mem_amnesty st.tokens
    · rw [h1, hAm, List.all_eq_true]
      intro t ht
      rcases List.mem_or_eq_of_mem_set ht with h2 | h2
      · exact healthy_of_mem_amnesty st.tokens t h2
      · subst h2
        rcases getD_mem_or_dflt (st.tokens.map amnesty) n dfltTok with h3 | h3
        · have := healthy_of_mem_amnesty st.tokens _ h3
          simp only [Bool.and_eq_true, beq_iff_eq] at this ⊢
          exact this
        · rw [h3]
          simp [dfltTok, freshToken]

/-- Witness for C6 on a concrete non-empty, all-inactive pool. -/
theorem c6_amnesty_witness :
    ((get_next_token
        ⟨[⟨"a", 3, false, none, none⟩, ⟨"b", 3, false, none, none⟩], 0, 0⟩ 5).1.tokens.all
      fun t => t.is_active && t.failure_count == 0) = true ∧
    (get_next_token
        ⟨[⟨"a", 3, false, none, none⟩, ⟨"b", 3, false, none, none⟩], 0, 0⟩ 5).2.isSome = true :=
  (c6_amnesty ⟨[⟨"a", 3, false, none, none⟩, ⟨"b", 3, false, none, none⟩], 0, 0⟩ 5).2
    (by decide) (by decide)

/-- In a pool with pairwise-distinct token strings, the linear scan
`next((t for t in self.tokens if t.token == token), None)` finds exactly
the entry itself. -/
theorem find?_token_self (l : List TokenInfo) (hnd : (l.map TokenInfo.token).Nodup)
    (t : TokenInfo) (ht : t ∈ l) :
    l.find? (fun x => x.token == t.token) = some t := by
  induction l with
  | nil => cases ht
  | cons a l ih =>
    simp only [List.map_cons, List.nodup_cons] at hnd
    rcases List.mem_cons.mp ht with h1 | h1
    · subst h1
      exact List.find?_cons_of_pos _ (by simp)
    · have hne : (a.token == t.token) = false := by
        rw [beq_eq_false_iff_ne]
        intro he
        exact hnd.1 (he ▸ List.mem_map_of_mem TokenInfo.token h1)
      rw [List.find?_cons_of_neg _ (by simp [hne])]
      exact ih hnd.2 h1

/-- A well-formed token string round-trips through a file line: stripping
is the identity, it is non-empty and it is not a comment. -/
def goodTokName (s : String) : Prop :=
  pyStrip s = s ∧ s ≠ "" ∧ strStarts s "#" = false

instance (s : String) : Decidable (goodTokName s) :=
  inferInstanceAs (Decidable (_ ∧ _ ∧ _))

theorem mergeLines_self (old : List TokenInfo) (hnd : (old.map TokenInfo.token).Nodup)
    (hgood : ∀ t ∈ old, goodTokName t.token) :
    ∀ sub : List TokenInfo, (∀ t ∈ sub, t ∈ old) →
      mergeLines old (sub.map TokenInfo.token) = sub := by
  intro sub
  induction sub with
  | nil => intro _; rfl
  | cons a l ih =>
    intro hsub
    have ha := hsub a (List.mem_cons_self _ _)
    obtain ⟨hs, hne, hh⟩ := hgood a ha
    have hcond : ((a.token == "") || strStarts a.token "#") = false := by
      simp [hh, hne]
    simp only [List.map_cons, mergeLines, hs, hcond, Bool.false_eq_true, if_false,
      find?_token_self old hnd a ha]
    exact congrArg _ (ih fun u hu => hsub u (List.mem_cons_of_mem _ hu))

/-- C8: reloading from a source that yields exactly the old pool's token
strings (and no backup additions) leaves every credential — failure
count, active flag, timestamps — and the cursor unchanged; only
`last_reload_time` is updated.  Moreover any entry of any reload that is
not carried over from the old pool is brand-new: zero failures, active,
no failure timestamp. -/
theorem c8_reload_preserves_health (st : TMState) (now : Nat)
    (h1 : st.tokens ≠ [])
    (h2 : (st.tokens.map TokenInfo.token).Nodup)
    (h3 : ∀ t ∈ st.tokens, goodTokName t.token)
    (h4 : st.current_index < st.tokens.length) :
    load_tokens st (some (st.tokens.map TokenInfo.token)) [] now
      = { st with last_reload_time := now } ∧
    (∀ fl bk now2 t, t ∈ (load_tokens st fl bk now2).tokens →
      t ∈ st.tokens ∨
        (t.failure_count = 0 ∧ t.is_active = true ∧ t.last_failure_time = none)) := by
  constructor
  · have hml := mergeLines_self st.tokens h2 h3 st.tokens (fun t ht => ht)
    have hm : mergedTokens st (some (st.tokens.map TokenInfo.token)) [] = st.tokens := by
      have hf : fileMerged st (some (st.tokens.map TokenInfo.token)) = st.tokens := hml
      simp only [mergedTokens, mergeBackup, hf]
      rw [if_neg (by simpa [List.isEmpty_iff] using h1)]
    simp only [load_tokens, hm]
    rw [if_neg (by simpa [List.isEmpty_iff] using h1),
      if_neg (by omega : ¬ st.tokens.length ≤ st.current_index)]
  · intro fl bk now2 t ht
    rcases load_tokens_mem st fl bk now2 t ht with hmem | ⟨s, hmem⟩
    · exact Or.inl hmem
    · subst hmem
      exact Or.inr ⟨rfl, rfl, rfl⟩

/-- Witness for C8 on a concrete two-credential pool with health state. -/
theorem c8_reload_preserves_health_witness :
    load_tokens ⟨[⟨"tokA", 2, true, some 1, some 2⟩, ⟨"tokB", 3, false, some 4, none⟩], 1, 9⟩
        (some ["tokA", "tokB"]) [] 42
      = ⟨[⟨"tokA", 2, true, some 1, some 2⟩, ⟨"tokB", 3, false, some 4, none⟩], 1, 42⟩ := by
  have h := (c8_reload_preserves_health
    ⟨[⟨"tokA", 2, true, some 1, some 2⟩, ⟨"tokB", 3, false, some 4, none⟩], 1, 9⟩ 42
    (by decide) (by decide) (by decide) (by decide)).1
  exact h

/-- C9: reporting failure or success for a token string that is not in
the pool leaves the entire pool state unchanged. -/
theorem c9_unknown_token_noop (maxF : Nat) (st : TMState) (tok : String) (now : Nat)
    (h : ∀ t ∈ st.tokens, t.token ≠ tok) :
    mark_token_failed maxF st tok now = st ∧ mark_token_success st tok = st := by
  constructor
  · unfold mark_token_failed
    rw [markFailedList_notin maxF now tok st.tokens h]
  · unfold mark_token_success
    rw [markSuccessList_notin tok st.tokens h]

/-- Witness for C9: a guest token absent from a concrete pool. -/
theorem c9_unknown_token_noop_witness :
    mark_token_failed 3 ⟨[⟨"a", 1, true, none, none⟩], 0, 0⟩ "guest" 5
        = ⟨[⟨"a", 1, true, none, none⟩], 0, 0⟩ ∧
      mark_token_success ⟨[⟨"a", 1, true, none, none⟩], 0, 0⟩ "guest"
        = ⟨[⟨"a", 1, true, none, none⟩], 0, 0⟩ :=
  c9_unknown_token_noop 3 ⟨[⟨"a", 1, true, none, none⟩], 0, 0⟩ "guest" 5 (by decide)

/-! ## Event Stream Reader byte loop: `app/core/openai.py` lines 233-285, 523-534

The buffer loop accumulates raw bytes across fragments, decodes, splits
on newlines, holds the trailing partial line in `incomplete_line` (and
re-extends `buffer` with it), and prepends a held `incomplete_line` when
the decoded text ends in a newline.  Bytes are modelled as naturals and
the model covers the decode-success path (fragments of valid ASCII,
where `bytes.decode('utf-8')` never raises); newline is byte 10. -/

/-- Python `text.split('\n')` at the byte level: `splitB [] = [[]]`,
and a trailing newline yields a trailing empty line. -/
def splitB : List Nat → List (List Nat)
  | [] => [[]]
  | b :: bs =>
    if b = 10 then [] :: splitB bs
    else
      match splitB bs with
      | h :: t => (b :: h) :: t
      | [] => [[b]]

/-- Python `text.endswith('\n')`. -/
def endsNl (l : List Nat) : Bool :=
  match l.getLast? with
  | some b => b == 10
  | none => false

/-- One iteration of `async for chunk in response.aiter_bytes()`
(lines 240-271): state is `(buffer, incomplete_line)`.  An empty chunk is
skipped; otherwise the chunk is appended to the buffer and the decoded
text is split into lines.  If the text ends in a newline, a held
`incomplete_line` is prepended to the first line and the state is fully
cleared; otherwise the last (partial) line is held in `incomplete_line`
and written back into the buffer, and only the complete lines are
processed. -/
def sseStep (st : List Nat × List Nat) (chunk : List Nat) :
    (List Nat × List Nat) × List (List Nat) :=
  if chunk.isEmpty then (st, [])
  else
    let buffer := st.1 ++ chunk
    let lines := splitB buffer
    if endsNl buffer then
      (([], []), if st.2.isEmpty then lines else (st.2 ++ lines.headD []) :: lines.tail)
    else
      let inc := lines.getLastD []
      ((inc, inc), lines.dropLast)

/-- The loop over all fragments, collecting the processed lines. -/
def sseRun : List (List Nat) → (List Nat × List Nat) → (List Nat × List Nat) × List (List Nat)
  | [], st => (st, [])
  | c :: cs, st =>
    let s1 := sseStep st c
    let s2 := sseRun cs s1.1
    (s2.1, s1.2 ++ s2.2)

/-- `if not current_line.strip(): continue` (line 276): a line of ASCII
whitespace bytes is skipped. -/
def isBlankLine (l : List Nat) : Bool :=
  l.all fun b => b == 32 || b == 9 || b == 10 || b == 13 || b == 11 || b == 12

/-- The sequence of non-blank records the reading loop hands to the
`data:` dispatcher, for a given fragmentation of the byte stream. -/
def sseRecords (chunks : List (List Nat)) : List (List Nat) :=
  (sseRun chunks ([], [])).2.filter fun l => !isBlankLine l

/-- C1 counterexample: the eight ASCII bytes of `"data: X\n"` delivered
whole yield the record `"data: X"`, but split as `"data:"` + `" X\n"`
the held prefix is prepended twice (it sits in both `incomplete_line`
and the re-extended buffer), yielding the corrupted record
`"data:data: X"`.  Fragmentation is therefore observable. -/
theorem c1_fragmentation_counterexample :
    sseRecords [[100, 97, 116, 97, 58], [32, 88, 10]]
      ≠ sseRecords [[100, 97, 116, 97, 58, 32, 88, 10]] := by
  decide

theorem splitB_ne_nil (l : List Nat) : splitB l ≠ [] := by
  cases l with
  | nil => simp [splitB]
  | cons b bs =>
    simp only [splitB]
    split
    · simp
    · split
      · simp
      · simp

theorem endsNl_cons (x : Nat) (xs : List Nat) (hxs : xs ≠ []) :
    endsNl (x :: xs) = endsNl xs := by
  unfold endsNl
  rcases List.exists_cons_of_ne_nil hxs with ⟨y, ys, rfl⟩
  rw [List.getLast?_cons_cons]

theorem splitB_cons_nl (bs : List Nat) : splitB (10 :: bs) = [] :: splitB bs := by
  simp [splitB]

theorem splitB_cons_other (x : Nat) (bs : List Nat) (h : List Nat) (t : List (List Nat))
    (hx : x ≠ 10) (hsp : splitB bs = h :: t) : splitB (x :: bs) = (x :: h) :: t := by
  simp [splitB, hx, hsp]

theorem splitB_last (a : List Nat) (ha : endsNl a = true) :
    2 ≤ (splitB a).length ∧ (splitB a).getLast? = some [] := by
  induction a with
  | nil => simp [endsNl] at ha
  | cons x xs ih =>
    by_cases hxs : xs = []
    · subst hxs
      have hx : x = 10 := by simpa [endsNl] using ha
      subst hx
      decide
    · have ha2 : endsNl xs = true := by rw [← endsNl_cons x xs hxs]; exact ha
      obtain ⟨h2, hlast⟩ := ih ha2
      rcases hsp : splitB xs with _ | ⟨h, t⟩
      · exact absurd hsp (splitB_ne_nil xs)
      · have ht : t ≠ [] := by
          intro hteq
          rw [hsp, hteq] at h2
          simp at h2
        rcases List.exists_cons_of_ne_nil ht with ⟨u, us, rfl⟩
        rw [hsp] at hlast
        rw [List.getLast?_cons_cons] at hlast
        by_cases hx : x = 10
        · subst hx
          rw [splitB_cons_nl xs, hsp]
          refine ⟨by simp, ?_⟩
          rw [List.getLast?_cons_cons, List.getLast?_cons_cons]
          exact hlast
        · rw [splitB_cons_other x xs h (u :: us) hx hsp]
          refine ⟨by simp, ?_⟩
          rw [List.getLast?_cons_cons]
          exact hlast

theorem splitB_append (a b : List Nat) (ha : endsNl a = true) :
    splitB (a ++ b) = (splitB a).dropLast ++ splitB b := by
  induction a with
  | nil => simp [endsNl] at ha
  | cons x xs ih =>
    by_cases hxs : xs = []
    · subst hxs
      have hx : x = 10 := by simpa [endsNl] using ha
      subst hx
      rw [List.cons_append, List.nil_append, splitB_cons_nl b, splitB_cons_nl []]
      simp [splitB]
    · have ha2 : endsNl xs = true := by rw [← endsNl_cons x xs hxs]; exact ha
      have hIH := ih ha2
      obtain ⟨hlen2, _⟩ := splitB_last xs ha2
      rcases hsp : splitB xs with _ | ⟨h, t⟩
      · exact absurd hsp (splitB_ne_nil xs)
      · have ht : t ≠ [] := by
          intro hteq
          rw [hsp, hteq] at hlen2
          simp at hlen2
        rw [hsp] at hIH
        by_cases hx : x = 10
        · subst hx
          rw [List.cons_append, splitB_cons_nl (xs ++ b), hIH, splitB_cons_nl xs, hsp,
            List.dropLast_cons_of_ne_nil ht, List.dropLast_cons_of_ne_nil (by simp : h :: t ≠ []),
            List.dropLast_cons_of_ne_nil ht]
          simp
        · rcases List.exists_cons_of_ne_nil ht with ⟨u, us, rfl⟩
          have hd : (h :: u :: us).dropLast = h :: (u :: us).dropLast :=
            List.dropLast_cons_of_ne_nil (by simp)
          rw [List.cons_append]
          rw [splitB_cons_other x xs h (u :: us) hx hsp]
          rw [hd] at hIH
          rw [List.cons_append] at hIH
          rw [splitB_cons_other x (xs ++ b) h ((u :: us).dropLast ++ splitB b) hx hIH]
          rw [List.dropLast_cons_of_ne_nil (by simp : u :: us ≠ [])]
          simp

theorem filter_splitB_append (a b : List Nat) (ha : endsNl a = true) :
    (splitB (a ++ b)).filter (fun l => !isBlankLine l)
      = (splitB a).filter (fun l => !isBlankLine l)
        ++ (splitB b).filter (fun l => !isBlankLine l) := by
  rw [splitB_append a b ha, List.filter_append]
  congr 1
  obtain ⟨_, hlast⟩ := splitB_last a ha
  conv_rhs => rw [← List.dropLast_append_getLast (splitB_ne_nil a)]
  rw [List.filter_append]
  have hl : (splitB a).getLast (splitB_ne_nil a) = [] := by
    have hg := List.getLast?_eq_getLast (splitB a) (splitB_ne_nil a)
    rw [hg] at hlast
    exact Option.some_inj.mp hlast
  rw [hl]
  simp [isBlankLine]

theorem endsNl_append (a b : List Nat) (hb : b ≠ []) : endsNl (a ++ b) = endsNl b := by
  unfold endsNl
  rw [List.getLast?_append_of_ne_nil a hb]

theorem join_good (chunks : List (List Nat)) (hne : chunks ≠ [])
    (h : ∀ c ∈ chunks, c ≠ [] ∧ endsNl c = true) :
    chunks.flatten ≠ [] ∧ endsNl chunks.flatten = true := by
  induction chunks with
  | nil => cases hne rfl
  | cons c cs ih =>
    obtain ⟨hc1, hc2⟩ := h c (List.mem_cons_self _ _)
    by_cases hcs : cs = []
    · subst hcs
      rw [List.flatten_cons, List.flatten_nil, List.append_nil]
      exact ⟨hc1, hc2⟩
    · obtain ⟨hj1, hj2⟩ := ih hcs (fun u hu => h u (List.mem_cons_of_mem _ hu))
      rw [List.flatten_cons]
      refine ⟨by simp [hj1], ?_⟩
      rw [endsNl_append c cs.flatten hj1]
      exact hj2

theorem filterJoin {α : Type} (p : α → Bool) (L : List (List α)) :
    (L.flatten).filter p = (L.map (fun l => l.filter p)).flatten := by
  induction L with
  | nil => rfl
  | cons a L ih => simp [List.flatten_cons, List.filter_append, ih]

theorem filter_splitB_join (chunks : List (List Nat))
    (h : ∀ c ∈ chunks, c ≠ [] ∧ endsNl c = true) :
    (splitB chunks.flatten).filter (fun l => !isBlankLine l)
      = (chunks.map (fun c => (splitB c).filter (fun l => !isBlankLine l))).flatten := by
  induction chunks with
  | nil => decide
  | cons c cs ih =>
    rw [List.flatten_cons, filter_splitB_append c cs.flatten (h c (List.mem_cons_self _ _)).2,
      List.map_cons, List.flatten_cons, ih (fun u hu => h u (List.mem_cons_of_mem _ hu))]

theorem sseStep_clean (c : List Nat) (hne : c ≠ []) (he : endsNl c = true) :
    sseStep ([], []) c = (([], []), splitB c) := by
  unfold sseStep
  rw [if_neg (by simpa [List.isEmpty_iff] using hne)]
  dsimp only
  rw [if_pos (by simpa using he)]
  rfl

theorem sseRun_clean (chunks : List (List Nat))
    (h : ∀ c ∈ chunks, c ≠ [] ∧ endsNl c = true) :
    sseRun chunks ([], []) = (([], []), (chunks.map splitB).flatten) := by
  induction chunks with
  | nil => rfl
  | cons c cs ih =>
    obtain ⟨h1, h2⟩ := h c (List.mem_cons_self _ _)
    simp only [sseRun, sseStep_clean c h1 h2,
      ih (fun u hu => h u (List.mem_cons_of_mem _ hu)), List.map_cons, List.flatten_cons]

/-- C1 amended: byte-boundary independence holds for newline-aligned
fragmentations — if every fragment is non-empty and ends at a record
boundary (a `\n` byte), the reading loop produces exactly the records of
the unfragmented stream.  (By `c1_fragmentation_counterexample` it fails
for arbitrary fragmentations: a held partial line is prepended twice.) -/
theorem c1_newline_aligned_transparent (chunks : List (List Nat))
    (h : ∀ c ∈ chunks, c ≠ [] ∧ endsNl c = true) :
    sseRecords chunks = sseRecords [chunks.flatten] := by
  by_cases hne : chunks = []
  · subst hne
    decide
  · obtain ⟨hj1, hj2⟩ := join_good chunks hne h
    unfold sseRecords
    rw [sseRun_clean chunks h]
    have hrun1 : sseRun [chunks.flatten] ([], []) = (([], []), splitB chunks.flatten) := by
      simp only [sseRun, sseStep_clean chunks.flatten hj1 hj2]
      simp
    rw [hrun1]
    dsimp only
    rw [filter_splitB_join chunks h, filterJoin, List.map_map]
    rfl

/-- Witness for C1 (amended) on two concrete newline-terminated
fragments, `"data: X\n"` and `"data: Y\n"`. -/
theorem c1_newline_aligned_witness :
    sseRecords [[100, 97, 116, 97, 58, 32, 88, 10], [100, 97, 116, 97, 58, 32, 89, 10]]
      = sseRecords [[100, 97, 116, 97, 58, 32, 88, 10, 100, 97, 116, 97, 58, 32, 89, 10]] :=
  c1_newline_aligned_transparent
    [[100, 97, 116, 97, 58, 32, 88, 10], [100, 97, 116, 97, 58, 32, 89, 10]] (by decide)

/-! ## Phase handling and terminal markers: `app/core/openai.py` lines 274-544

The per-line dispatcher of `stream_response` for a request that
initialises no tool handler (`has_tools` and `has_mcp_servers` both
false, lines 210-225): each complete line is classified, `data:` payloads
are parsed, `chat:completion` events drive the thinking/answer phase
machine, and a `usage` payload emits the finish chunk plus `[DONE]`.
Aggregate output chunks are modelled by their discriminating content
only.  Note the `yield` at line 444 is indented one level outside
`if content_after:`, so with an empty `content_after` it re-emits the
stale `content_chunk` variable — or raises `UnboundLocalError` when that
variable was never assigned, which the per-chunk `except` at line 520
swallows, skipping the usage check for that event. -/

/-- The `data` payload of an upstream event: `data.get("phase")`,
`data.get("delta_content", "")`, `data.get("edit_content", "")`, and the
truthiness of `data.get("usage")` (absent or falsy is `none`). -/
structure ZData where
  phase : Option String
  delta_content : String
  edit_content : String
  usage : Option Nat
deriving DecidableEq, Repr

/-- A parsed upstream JSON chunk: `chunk.get("type")` and its data. -/
structure ZEvent where
  type : String
  data : ZData
deriving DecidableEq, Repr

/-- Classification of one complete line handed to the dispatcher. -/
inductive SSELine where
  | blank : SSELine
  | nonData (s : String) : SSELine
  | emptyData : SSELine
  | doneMarker : SSELine
  | badJson (s : String) : SSELine
  | event (e : ZEvent) : SSELine
deriving DecidableEq, Repr

/-- One output record of the generator, keyed by what distinguishes it:
the role chunk, a content chunk with its delta text, the finish chunk
with its usage, the `data: [DONE]` record, or an error record. -/
inductive OutChunk where
  | role : OutChunk
  | content (s : String) : OutChunk
  | finish (usage : Nat) : OutChunk
  | doneMark : OutChunk
  | errorOut (code : Nat) : OutChunk
deriving DecidableEq, Repr

/-- The mutable locals of the stream-processing loop (lines 228-230 and
the `content_chunk` variable of the answer branch). -/
structure PhaseState where
  has_thinking : Bool
  first_thinking : Bool
  content_chunk : Option String
deriving DecidableEq, Repr

def initPhase : PhaseState := ⟨false, true, none⟩

/-- Thinking-delta cleanup (lines 336-343): a delta starting with
`<details` is reduced to the stripped text after `"</summary>\n>"` when
that wrapper boundary occurs in it. -/
def thinkContent (delta : String) : String :=
  if strStarts delta "<details" then
    if strContains delta "</summary>\n>" then pyStrip (strAfterLast delta "</summary>\n>")
    else delta
  else delta

/-- Processing of one parsed `chat:completion` event (lines 292-516) when
no tool handler exists.  The `Bool` in the intermediate triple records
that the swallowed `UnboundLocalError` of line 444 aborted the rest of
this event's handling (skipping the usage check). -/
def procEvent (st : PhaseState) (e : ZEvent) : PhaseState × List OutChunk :=
  if e.type ≠ "chat:completion" then (st, [])
  else
    let data := e.data
    let phase := data.phase
    let step :=
      if phase = some "tool_call" ∨ phase = some "other" then (st, ([] : List OutChunk), false)
      else if phase = some "thinking" then
        let stA := if !st.has_thinking then { st with has_thinking := true } else st
        let roleOut : List OutChunk := if !st.has_thinking then [OutChunk.role] else []
        let delta := data.delta_content
        if delta ≠ "" then
          let content := thinkContent delta
          if stA.first_thinking then
            ({ stA with first_thinking := false },
              roleOut ++ [OutChunk.content ("<think>" ++ content)], false)
          else (stA, roleOut ++ [OutChunk.content content], false)
        else (stA, roleOut, false)
      else if phase = some "answer" then
        let edit := data.edit_content
        let delta := data.delta_content
        let stA := if !st.has_thinking then { st with has_thinking := true } else st
        let roleOut : List OutChunk := if !st.has_thinking then [OutChunk.role] else []
        if edit ≠ "" ∧ strContains edit "</details>\n" then
          let sigOut : List OutChunk :=
            if stA.has_thinking ∧ ¬(stA.first_thinking = true) then
              [OutChunk.content "</think>"]
            else []
          let contentAfter := strAfterLast edit "</details>\n"
          if contentAfter ≠ "" then
            ({ stA with content_chunk := some contentAfter },
              roleOut ++ sigOut ++ [OutChunk.content contentAfter], false)
          else
            match stA.content_chunk with
            | some stale => (stA, roleOut ++ sigOut ++ [OutChunk.content stale], false)
            | none => (stA, roleOut ++ sigOut, true)
        else if delta ≠ "" then
          let stB := if !stA.has_thinking then { stA with has_thinking := true } else stA
          let roleOut2 : List OutChunk := if !stA.has_thinking then [OutChunk.role] else []
          ({ stB with content_chunk := some delta },
            roleOut ++ roleOut2 ++ [OutChunk.content delta], false)
        else (stA, roleOut, false)
      else (st, [], false)
    match step with
    | (st1, out1, skipUsage) =>
      if skipUsage then (st1, out1)
      else
        match data.usage with
        | some u => (st1, out1 ++ [OutChunk.finish u, OutChunk.doneMark])
        | none => (st1, out1)

/-- Dispatch of one complete line (lines 274-290): blank lines and lines
without the `data:` prefix are skipped, an empty payload is skipped, a
`[DONE]` payload is forwarded verbatim, a JSON parse failure is logged
and skipped, and a parsed object is handled by `procEvent`. -/
def procLine (st : PhaseState) (l : SSELine) : PhaseState × List OutChunk :=
  match l with
  | .blank => (st, [])
  | .nonData _ => (st, [])
  | .emptyData => (st, [])
  | .doneMarker => (st, [OutChunk.doneMark])
  | .badJson _ => (st, [])
  | .event e => procEvent st e

def procLines : List SSELine → PhaseState → PhaseState × List OutChunk
  | [], st => (st, [])
  | l :: ls, st =>
    let s1 := procLine st l
    let s2 := procLines ls s1.1
    (s2.1, s1.2 ++ s2.2)

/-- The complete stream processing of one successful (HTTP 200) attempt
for a request without tools: the line loop, followed by the
unconditional closing `yield "data: [DONE]"` of lines 541-544 (its
tool-handler guard is vacuously true here). -/
def processStream (ls : List SSELine) : List OutChunk :=
  (procLines ls initPhase).2 ++ [OutChunk.doneMark]

/-- An upstream `thinking`-phase event carrying only a delta. -/
def thinkEv (d : String) : SSELine :=
  .event ⟨"chat:completion", ⟨some "thinking", d, "", none⟩⟩

/-- An upstream end-of-stream event: phase `done` with usage payload. -/
def doneEv (u : Nat) : SSELine :=
  .event ⟨"chat:completion", ⟨some "done", "", "", some u⟩⟩

/-- C2 counterexample: when the upstream stream itself contains a
`data: [DONE]` record, the loop forwards it (line 284) and then the
closing code of lines 541-544 emits a second one — the client sees two
terminal markers, not exactly one. -/
theorem c2_duplicate_done_counterexample :
    processStream [SSELine.doneMarker] = [OutChunk.doneMark, OutChunk.doneMark] ∧
      (processStream [SSELine.doneMarker]).count OutChunk.doneMark ≠ 1 := by
  decide

/-- C3 counterexample: a thinking-only stream (`"hello"`) followed by a
`done`-with-usage event produces the start marker but NO `</think>` end
marker — the end marker is only ever emitted inside the `answer` branch
(line 399-421), and nothing flushes it at stream end. -/
theorem c3_missing_end_marker_counterexample :
    processStream [thinkEv "hello", doneEv 5]
        = [OutChunk.role, OutChunk.content "<think>hello", OutChunk.finish 5,
            OutChunk.doneMark, OutChunk.doneMark] ∧
      (processStream [thinkEv "hello", doneEv 5]).count (OutChunk.content "</think>") = 0 := by
  decide

theorem procLine_done_lower (st : PhaseState) (l : SSELine) :
    (if l = SSELine.doneMarker then 1 else 0) ≤ (procLine st l).2.count OutChunk.doneMark := by
  cases l with
  | doneMarker => simp [procLine]
  | blank => simp [procLine]
  | nonData s => simp [procLine]
  | emptyData => simp [procLine]
  | badJson s => simp [procLine]
  | event e => simp [procLine]

theorem procLines_done_lower (ls : List SSELine) : ∀ st : PhaseState,
    ls.count SSELine.doneMarker ≤ ((procLines ls st).2).count OutChunk.doneMark := by
  induction ls with
  | nil =>
    intro st
    simp [procLines]
  | cons l ls ih =>
    intro st
    have h1 := procLine_done_lower st l
    have h2 := ih (procLine st l).1
    simp only [procLines, List.count_append]
    rw [List.count_cons]
    by_cases hl : l = SSELine.doneMarker
    · rw [if_pos (by simp [hl])]
      rw [if_pos hl] at h1
      omega
    · rw [if_neg (by simp [hl])]
      rw [if_neg hl] at h1
      omega

/-- C2 amended: for a tool-free request, every processed stream is
terminated by a final `[DONE]` record and contains at least one `[DONE]`
— but not exactly one: every upstream `[DONE]` record is forwarded in
addition to the final one (and each usage event adds another), as
`c2_duplicate_done_counterexample` exhibits. -/
theorem c2_stream_always_terminated (ls : List SSELine) :
    (processStream ls).getLast? = some OutChunk.doneMark ∧
      1 + ls.count SSELine.doneMarker ≤ (processStream ls).count OutChunk.doneMark := by
  constructor
  · unfold processStream
    simp
  · unfold processStream
    rw [List.count_append]
    have h := procLines_done_lower ls initPhase
    have h2 : (([OutChunk.doneMark] : List OutChunk).count OutChunk.doneMark) = 1 := by decide
    omega

theorem isPrefixOf_append_self {α : Type} [BEq α] [LawfulBEq α] (l t : List α) :
    l.isPrefixOf (l ++ t) = true := by
  induction l with
  | nil => simp [List.isPrefixOf]
  | cons a l ih => simp [List.isPrefixOf, ih]

theorem strStarts_append_self (p x : String) : strStarts (p ++ x) p = true := by
  unfold strStarts
  have hd : (p ++ x).data = p.data ++ x.data := String.data_append p x
  rw [hd]
  exact isPrefixOf_append_self p.data x.data

theorem think_append_ne (x : String) : ("<think>" ++ x) ≠ "</think>" := by
  intro h
  have h2 : ("<think>" ++ x).data = "</think>".data := congrArg String.data h
  rw [String.data_append] at h2
  have h3 := congrArg (fun l => l[1]?) h2
  simp only at h3
  rw [List.getElem?_append_left (by decide)] at h3
  exact absurd h3 (by decide)

theorem procLine_think_steady (d : String) (hdne : d ≠ "") (cc : Option String) :
    procLine ⟨true, false, cc⟩ (thinkEv d)
      = (⟨true, false, cc⟩, [OutChunk.content (thinkContent d)]) := by
  simp [procLine, procEvent, thinkEv, hdne]

theorem procLine_think_first (d : String) (hdne : d ≠ "") :
    procLine initPhase (thinkEv d)
      = (⟨true, false, none⟩,
          [OutChunk.role, OutChunk.content ("<think>" ++ thinkContent d)]) := by
  simp [procLine, procEvent, thinkEv, initPhase, hdne]

theorem procLine_done (u : Nat) (st : PhaseState) :
    procLine st (doneEv u) = (st, [OutChunk.finish u, OutChunk.doneMark]) := by
  simp [procLine, procEvent, doneEv]

theorem procLines_think_steady (ds : List String) (hd : ∀ d ∈ ds, d ≠ "")
    (cc : Option String) :
    procLines (ds.map thinkEv) ⟨true, false, cc⟩
      = (⟨true, false, cc⟩, ds.map (fun d => OutChunk.content (thinkContent d))) := by
  induction ds with
  | nil => rfl
  | cons d ds ih =>
    simp only [List.map_cons, procLines,
      procLine_think_steady d (hd d (List.mem_cons_self _ _)) cc,
      ih (fun x hx => hd x (List.mem_cons_of_mem _ hx))]
    rfl

theorem procLines_append (as bs : List SSELine) (st : PhaseState) :
    procLines (as ++ bs) st
      = ((procLines bs (procLines as st).1).1,
          (procLines as st).2 ++ (procLines bs (procLines as st).1).2) := by
  induction as generalizing st with
  | nil => simp [procLines]
  | cons a as ih => simp [procLines, ih, List.append_assoc]

/-- The full output of a thinking-only stream followed by an upstream
done event: role chunk, first thinking chunk prefixed with `<think>`,
the remaining thinking chunks verbatim, finish, the usage-triggered
`[DONE]`, and the closing `[DONE]` — and no `</think>` anywhere. -/
theorem processStream_thinking_only (d : String) (ds : List String) (u : Nat)
    (hd : ∀ x ∈ d :: ds, x ≠ "") :
    processStream ((d :: ds).map thinkEv ++ [doneEv u])
      = [OutChunk.role, OutChunk.content ("<think>" ++ thinkContent d)]
        ++ ds.map (fun x => OutChunk.content (thinkContent x))
        ++ [OutChunk.finish u, OutChunk.doneMark, OutChunk.doneMark] := by
  unfold processStream
  rw [List.map_cons, List.cons_append]
  have h1 := procLine_think_first d (hd d (List.mem_cons_self _ _))
  have h2 := procLines_think_steady ds (fun x hx => hd x (List.mem_cons_of_mem _ hx)) none
  simp only [procLines, h1, procLines_append, h2, procLine_done]
  simp

/-- Number of emitted content chunks that begin with the start-of-thought
marker `<think>`. -/
def countStart (outs : List OutChunk) : Nat :=
  outs.countP fun o =>
    match o with
    | OutChunk.content s => strStarts s "<think>"
    | _ => false

/-- Number of emitted end-of-thought marker chunks (`</think>`). -/
def countEnd (outs : List OutChunk) : Nat :=
  outs.count (OutChunk.content "</think>")

/-- C3 amended: a thinking-only stream followed by `done` emits exactly
one start-of-thought marker and NO end-of-thought marker — the
`</think>` chunk is only produced on an `answer` event whose
`edit_content` contains the wrapper boundary `"</details>\n"`, and the
stream-end path never flushes it (in contrast with the claim).  The
hypotheses rule out thinking deltas that themselves spoof a marker. -/
theorem c3_thinking_only_markers (d : String) (ds : List String) (u : Nat)
    (hd : ∀ x ∈ d :: ds, x ≠ "")
    (hc : ∀ x ∈ d :: ds,
      strStarts (thinkContent x) "<think>" = false ∧ thinkContent x ≠ "</think>") :
    countStart (processStream ((d :: ds).map thinkEv ++ [doneEv u])) = 1 ∧
      countEnd (processStream ((d :: ds).map thinkEv ++ [doneEv u])) = 0 := by
  rw [processStream_thinking_only d ds u hd]
  constructor
  · unfold countStart
    rw [List.countP_append, List.countP_append]
    have hfirst : (List.countP
        (fun o => match o with
          | OutChunk.content s => strStarts s "<think>"
          | _ => false)
        [OutChunk.role, OutChunk.content ("<think>" ++ thinkContent d)]) = 1 := by
      simp [List.countP_cons, strStarts_append_self]
    have hmid : (List.countP
        (fun o => match o with
          | OutChunk.content s => strStarts s "<think>"
          | _ => false)
        (ds.map fun x => OutChunk.content (thinkContent x))) = 0 := by
      rw [List.countP_eq_zero]
      intro o ho
      rcases List.mem_map.mp ho with ⟨x, hx, hox⟩
      subst hox
      simp [(hc x (List.mem_cons_of_mem _ hx)).1]
    have htail : (List.countP
        (fun o => match o with
          | OutChunk.content s => strStarts s "<think>"
          | _ => false)
        [OutChunk.finish u, OutChunk.doneMark, OutChunk.doneMark]) = 0 := by
      simp [List.countP_cons]
    omega
  · unfold countEnd
    rw [List.count_append, List.count_append]
    have hfirst : ([OutChunk.role,
        OutChunk.content ("<think>" ++ thinkContent d)].count
          (OutChunk.content "</think>")) = 0 := by
      rw [List.count_eq_zero]
      intro hmem
      rcases List.mem_cons.mp hmem with h1 | h1
      · cases h1
      · rcases List.mem_singleton.mp h1 with h2
        exact think_append_ne (thinkContent d) (OutChunk.content.inj h2.symm)
    have hmid : ((ds.map fun x => OutChunk.content (thinkContent x)).count
        (OutChunk.content "</think>")) = 0 := by
      rw [List.count_eq_zero]
      intro hmem
      rcases List.mem_map.mp hmem with ⟨x, hx, hox⟩
      exact (hc x (List.mem_cons_of_mem _ hx)).2 (OutChunk.content.inj hox)
    have htail : ([OutChunk.finish u, OutChunk.doneMark, OutChunk.doneMark].count
        (OutChunk.content "</think>")) = 0 := by
      simp [List.count_cons]
    omega

/-- Witness for C3 (amended) on the concrete stream `thinking "hello"`
then `done` with usage 5. -/
theorem c3_thinking_only_markers_witness :
    countStart (processStream (["hello"].map thinkEv ++ [doneEv 5])) = 1 ∧
      countEnd (processStream (["hello"].map thinkEv ++ [doneEv 5])) = 0 :=
  c3_thinking_only_markers "hello" [] 5 (by decide) (by decide)

/-! ## Retry loops: `app/core/openai.py` lines 66-616 and
`app/core/response_handlers.py` lines 64-155

`streamLoopIter` embeds the `while retry_count <= settings.MAX_RETRIES`
loop of `stream_response` as a trace of observable actions, driven by
the HTTP status each attempt sees.  Modelling assumptions: token
re-acquisition on retry always succeeds (`tok r` is the token used by
attempt `r`); every attempt reaches a status code, so the `except`
branch (lines 592-616) is not exercised; the 200 body processing is
abstracted as one `streamBody` action followed by the closing `[DONE]`,
with the completeness check passing (no lines-empty retry).

`cuIter` embeds `ResponseHandler._call_upstream`'s
`while retry_count < max_retries` loop; its result is the returned
response status, `none` standing for the final
`raise Exception` when the loop exhausts. -/

/-- Observable actions of the retry loops. -/
inductive Act where
  | call (attempt : Nat)
  | markFail (tok : String)
  | markSucc (tok : String)
  | yieldError (code : Nat)
  | yieldDone
  | streamBody
deriving DecidableEq, Repr

def callCount (acts : List Act) : Nat :=
  acts.countP fun a => match a with | Act.call _ => true | _ => false

def errCount (acts : List Act) : Nat :=
  acts.countP fun a => match a with | Act.yieldError _ => true | _ => false

def doneCount (acts : List Act) : Nat := acts.count Act.yieldDone

/-- One pass of the `stream_response` retry loop at `retry_count = r`
(fuel decreases with each retry; `R` is `settings.MAX_RETRIES`).  The
retry preamble (lines 75-91) marks the token of the previous attempt as
failed before re-acquiring; then the upstream call is classified exactly
as lines 102-207: 400/401/429 bump `retry_count` and either continue or
emit one error record plus `[DONE]`; any other non-200 retries only for
502/503/504 below the bound, else emits one error record plus `[DONE]`;
a 200 marks the token successful, streams the body and closes with
`[DONE]`. -/
def streamLoopIter (R : Nat) (status : Nat → Nat) (tok : Nat → String) :
    Nat → Nat → List Act
  | 0, _ => []
  | fuel + 1, r =>
    let pre : List Act := if r = 0 then [] else [Act.markFail (tok (r - 1))]
    let s := status r
    let call : List Act := [Act.call r]
    if s = 400 then
      if r + 1 ≤ R then pre ++ call ++ streamLoopIter R status tok fuel (r + 1)
      else pre ++ call ++ [Act.yieldError 400, Act.yieldDone]
    else if s = 401 then
      if r + 1 ≤ R then
        pre ++ call ++ [Act.markFail (tok r)] ++ streamLoopIter R status tok fuel (r + 1)
      else pre ++ call ++ [Act.markFail (tok r), Act.yieldError 401, Act.yieldDone]
    else if s = 429 then
      if r + 1 ≤ R then pre ++ call ++ streamLoopIter R status tok fuel (r + 1)
      else pre ++ call ++ [Act.yieldError 429, Act.yieldDone]
    else if s ≠ 200 then
      if (s = 502 ∨ s = 503 ∨ s = 504) ∧ r < R then
        pre ++ call ++ streamLoopIter R status tok fuel (r + 1)
      else pre ++ call ++ [Act.yieldError s, Act.yieldDone]
    else
      pre ++ call ++ [Act.markSucc (tok r), Act.streamBody, Act.yieldDone]

/-- The whole `stream_response` retry loop, starting at `retry_count = 0`
with enough fuel for all `R + 1` possible attempts. -/
def streamLoopActs (R : Nat) (status : Nat → Nat) (tok : Nat → String) : List Act :=
  streamLoopIter R status tok (R + 1) 0

/-- One pass of `ResponseHandler._call_upstream` (lines 64-155) at
`retry_count = r`: 200 marks success and returns; 401/403 mark the
credential failed and rotate to a genuinely new token or return the
response; 429 and 5xx retry while `retry_count < max_retries - 1`, else
return the response; any other status (including 400) returns
immediately.  `none` models the closing `raise` after loop exhaustion. -/
def cuIter (maxR : Nat) (status : Nat → Nat) (nextTok : Nat → Option String) :
    Nat → Nat → String → List Act × Option Nat
  | 0, _, _ => ([], none)
  | fuel + 1, r, auth =>
    if r < maxR then
      let s := status r
      if s = 200 then ([Act.call r, Act.markSucc auth], some 200)
      else if s = 401 ∨ s = 403 then
        match nextTok r with
        | some n =>
          if n ≠ auth then
            let rest := cuIter maxR status nextTok fuel (r + 1) n
            ([Act.call r, Act.markFail auth] ++ rest.1, rest.2)
          else ([Act.call r, Act.markFail auth], some s)
        | none => ([Act.call r, Act.markFail auth], some s)
      else if s = 429 then
        if r < maxR - 1 then
          let rest := cuIter maxR status nextTok fuel (r + 1) auth
          ([Act.call r] ++ rest.1, rest.2)
        else ([Act.call r], some s)
      else if 500 ≤ s then
        if r < maxR - 1 then
          let rest := cuIter maxR status nextTok fuel (r + 1) auth
          ([Act.call r] ++ rest.1, rest.2)
        else ([Act.call r], some s)
      else ([Act.call r], some s)
    else ([], none)

def cuRun (maxR : Nat) (status : Nat → Nat) (nextTok : Nat → Option String)
    (auth : String) : List Act × Option Nat :=
  cuIter maxR status nextTok (maxR + 1) 0 auth

/-- C4 counterexample: with the default `MAX_RETRIES = 3` and an
upstream that always answers 503, `ResponseHandler._call_upstream` —
one of the two retry loops the claim covers — issues exactly
`maxRetries` calls (its loop runs `retry_count < max_retries` and stops
retrying at `max_retries - 1`), not `maxRetries + 1`. -/
theorem c4_call_upstream_counterexample :
    callCount (cuRun 3 (fun _ => 503) (fun _ => none) "t").1 = 3 ∧
      callCount (cuRun 3 (fun _ => 503) (fun _ => none) "t").1 ≠ 3 + 1 := by
  decide

theorem streamLoop503_counts (R : Nat) (tok : Nat → String) :
    ∀ fuel r, r ≤ R → fuel = R + 1 - r →
      callCount (streamLoopIter R (fun _ => 503) tok fuel r) = R + 1 - r ∧
        errCount (streamLoopIter R (fun _ => 503) tok fuel r) = 1 ∧
        doneCount (streamLoopIter R (fun _ => 503) tok fuel r) = 1 := by
  intro fuel
  induction fuel with
  | zero =>
    intro r hr hf
    omega
  | succ fuel ih =>
    intro r hr hf
    by_cases hlt : r < R
    · have h1 := ih (r + 1) (by omega) (by omega)
      simp only [streamLoopIter]
      rw [if_neg (by norm_num), if_neg (by norm_num), if_neg (by norm_num),
        if_pos (by norm_num : (503 : Nat) ≠ 200), if_pos (by simp [hlt])]
      unfold callCount errCount doneCount at h1 ⊢
      rcases h1 with ⟨hc, he, hdn⟩
      by_cases hr0 : r = 0
      · subst hr0
        simp [List.countP_append, List.count_append, hc, he, hdn,
          List.countP_cons, List.count_cons]
      · simp [hr0, List.countP_append, List.count_append, hc, he, hdn,
          List.countP_cons, List.count_cons]
        omega
    · have hrR : r = R := by omega
      simp only [streamLoopIter]
      rw [if_neg (by norm_num), if_neg (by norm_num), if_neg (by norm_num),
        if_pos (by norm_num : (503 : Nat) ≠ 200), if_neg (by simp [hlt])]
      unfold callCount errCount doneCount
      by_cases hr0 : r = 0
      · simp [hr0, List.countP_append, List.count_append, List.countP_cons, List.count_cons]
        omega
      · simp [hr0, List.countP_append, List.count_append, List.countP_cons, List.count_cons]
        omega

theorem cu503_counts (m : Nat) (nt : Nat → Option String) :
    ∀ fuel r auth, r < m → fuel = m + 1 - r →
      callCount (cuIter m (fun _ => 503) nt fuel r auth).1 = m - r ∧
        (cuIter m (fun _ => 503) nt fuel r auth).2 = some 503 := by
  intro fuel
  induction fuel with
  | zero =>
    intro r auth hr hf
    omega
  | succ fuel ih =>
    intro r auth hr hf
    simp only [cuIter]
    rw [if_pos hr]
    rw [if_neg (by norm_num), if_neg (by norm_num), if_neg (by norm_num),
      if_pos (by norm_num : (500 : Nat) ≤ 503)]
    by_cases hlt : r < m - 1
    · rw [if_pos hlt]
      have h1 := ih (r + 1) auth (by omega) (by omega)
      unfold callCount at h1 ⊢
      rcases h1 with ⟨hc, hres⟩
      constructor
      · simp [List.countP_cons, hc]
        omega
      · exact hres
    · rw [if_neg hlt]
      constructor
      · unfold callCount
        simp [List.countP_cons]
        omega
      · rfl

/-- C4 amended: for an upstream returning 503 on every attempt, the
streaming orchestrator of `openai.py` attempts exactly `maxRetries + 1`
times and emits exactly one terminal error record and one `[DONE]`; but
the `ResponseHandler._call_upstream` loop of `response_handlers.py`
issues exactly `maxRetries` calls before returning the 503 response. -/
theorem c4_retry_bound (R : Nat) (tok : Nat → String) :
    (callCount (streamLoopActs R (fun _ => 503) tok) = R + 1 ∧
      errCount (streamLoopActs R (fun _ => 503) tok) = 1 ∧
      doneCount (streamLoopActs R (fun _ => 503) tok) = 1) ∧
    (∀ m : Nat, 0 < m → ∀ nt auth,
      callCount (cuRun m (fun _ => 503) nt auth).1 = m ∧
        (cuRun m (fun _ => 503) nt auth).2 = some 503) := by
  constructor
  · have h := streamLoop503_counts R tok (R + 1) 0 (by omega) (by omega)
    simpa [streamLoopActs] using h
  · intro m hm nt auth
    have h := cu503_counts m nt (m + 1) 0 auth (by omega) (by omega)
    simpa [cuRun] using h

/-- Witness for C4 (amended) at the default `MAX_RETRIES = 3`. -/
theorem c4_retry_bound_witness :
    (callCount (streamLoopActs 3 (fun _ => 503) (fun _ => "t")) = 3 + 1 ∧
      errCount (streamLoopActs 3 (fun _ => 503) (fun _ => "t")) = 1 ∧
      doneCount (streamLoopActs 3 (fun _ => 503) (fun _ => "t")) = 1) ∧
    (callCount (cuRun 3 (fun _ => 503) (fun _ => none) "u").1 = 3 ∧
      (cuRun 3 (fun _ => 503) (fun _ => none) "u").2 = some 503) :=
  ⟨(c4_retry_bound 3 (fun _ => "t")).1,
    (c4_retry_bound 3 (fun _ => "t")).2 3 (by decide) (fun _ => none) "u"⟩

/-- C7 counterexample: a 400 is retried by the streaming loop, but the
credential that saw the 400 IS attributed — the retry preamble of lines
75-91 marks the previous token failed on every retry regardless of the
error class; and `_call_upstream` does not retry a 400 at all: it falls
into the final `else` (lines 115-118) and returns the response after a
single call. -/
theorem c7_http400_counterexample :
    Act.markFail "t" ∈ streamLoopActs 3 (fun _ => 400) (fun _ => "t") ∧
      cuRun 3 (fun _ => 400) (fun _ => none) "u" = ([Act.call 0], some 400) := by
  decide

theorem streamLoop400_counts (R : Nat) (tok : Nat → String) :
    ∀ fuel r, r ≤ R → fuel = R + 1 - r →
      callCount (streamLoopIter R (fun _ => 400) tok fuel r) = R + 1 - r ∧
        errCount (streamLoopIter R (fun _ => 400) tok fuel r) = 1 ∧
        doneCount (streamLoopIter R (fun _ => 400) tok fuel r) = 1 := by
  intro fuel
  induction fuel with
  | zero =>
    intro r hr hf
    omega
  | succ fuel ih =>
    intro r hr hf
    by_cases hlt : r + 1 ≤ R
    · have h1 := ih (r + 1) (by omega) (by omega)
      simp only [streamLoopIter]
      rw [if_pos trivial, if_pos hlt]
      unfold callCount errCount doneCount at h1 ⊢
      rcases h1 with ⟨hc, he, hdn⟩
      by_cases hr0 : r = 0
      · subst hr0
        simp [List.countP_append, List.count_append, hc, he, hdn,
          List.countP_cons, List.count_cons]
      · simp [hr0, List.countP_append, List.count_append, hc, he, hdn,
          List.countP_cons, List.count_cons]
        omega
    · simp only [streamLoopIter]
      rw [if_pos trivial, if_neg hlt]
      unfold callCount errCount doneCount
      by_cases hr0 : r = 0
      · simp [hr0, List.countP_append, List.count_append, List.countP_cons, List.count_cons]
        omega
      · simp [hr0, List.countP_append, List.count_append, List.countP_cons, List.count_cons]
        omega

theorem streamLoop400_marks (R : Nat) (tok : Nat → String) :
    ∀ fuel r, r ≤ R → fuel = R + 1 - r →
      ∀ j, r ≤ j + 1 → j < R →
        Act.markFail (tok j) ∈ streamLoopIter R (fun _ => 400) tok fuel r := by
  intro fuel
  induction fuel with
  | zero =>
    intro r hr hf
    omega
  | succ fuel ih =>
    intro r hr hf j hj1 hj2
    by_cases hlt : r + 1 ≤ R
    · simp only [streamLoopIter]
      rw [if_pos trivial, if_pos hlt]
      by_cases hjr : j + 1 = r
      · have hr0 : ¬ r = 0 := by omega
        rw [if_neg hr0]
        apply List.mem_append.mpr
        apply Or.inl
        apply List.mem_append.mpr
        apply Or.inl
        simp [show r - 1 = j by omega]
      · have := ih (r + 1) (by omega) (by omega) j (by omega) hj2
        exact List.mem_append.mpr (Or.inr this)
    · have hrR : r = R := by omega
      have hjr : j = r - 1 := by omega
      have hr0 : ¬ r = 0 := by omega
      simp only [streamLoopIter]
      rw [if_pos trivial, if_neg hlt, if_neg hr0]
      apply List.mem_append.mpr
      apply Or.inl
      apply List.mem_append.mpr
      apply Or.inl
      simp [show r - 1 = j by omega]

theorem cu400_immediate (m : Nat) (hm : 0 < m) (nt : Nat → Option String) (auth : String) :
    cuRun m (fun _ => 400) nt auth = ([Act.call 0], some 400) := by
  simp only [cuRun, cuIter]
  rw [if_pos hm]
  norm_num

/-- C7 amended: an upstream 400 is retried up to the attempt bound by
the streaming orchestrator (exactly `maxRetries + 1` calls, one terminal
error, one `[DONE]`), but each retry first marks the credential of the
previous (400-failed) attempt as failed — the failure IS attributed to
the credential; and `ResponseHandler._call_upstream` does not treat 400
as retryable at all: it returns the 400 response after exactly one call
without marking the credential. -/
theorem c7_http400_retry (R : Nat) (hR : 1 ≤ R) (tok : Nat → String) :
    callCount (streamLoopActs R (fun _ => 400) tok) = R + 1 ∧
      errCount (streamLoopActs R (fun _ => 400) tok) = 1 ∧
      doneCount (streamLoopActs R (fun _ => 400) tok) = 1 ∧
      Act.markFail (tok 0) ∈ streamLoopActs R (fun _ => 400) tok ∧
      (∀ nt auth, cuRun R (fun _ => 400) nt auth = ([Act.call 0], some 400)) := by
  have hc := streamLoop400_counts R tok (R + 1) 0 (by omega) (by omega)
  have hm := streamLoop400_marks R tok (R + 1) 0 (by omega) (by omega) 0 (by omega) (by omega)
  refine ⟨by simpa [streamLoopActs] using hc.1, by simpa [streamLoopActs] using hc.2.1,
    by simpa [streamLoopActs] using hc.2.2, by simpa [streamLoopActs] using hm, ?_⟩
  intro nt auth
  exact cu400_immediate R (by omega) nt auth

/-- Witness for C7 (amended) at the default `MAX_RETRIES = 3`. -/
theorem c7_http400_retry_witness :
    callCount (streamLoopActs 3 (fun _ => 400) (fun _ => "t")) = 3 + 1 ∧
      Act.markFail "t" ∈ streamLoopActs 3 (fun _ => 400) (fun _ => "t") ∧
      cuRun 3 (fun _ => 400) (fun _ => none) "u" = ([Act.call 0], some 400) := by
  have h := c7_http400_retry 3 (by decide) (fun _ => "t")
  exact ⟨h.1, h.2.2.2.1, h.2.2.2.2 (fun _ => none) "u"⟩

/-! ## Tools gating: `app/core/zai_transformer.py` lines 313-424

`transform_request_in` computes `is_thinking` from the requested model
and the `reasoning` flag (lines 315-317) and sets the upstream body's
`tools` field (lines 420-424): the declared tools are forwarded only
when `TOOL_SUPPORT` is on, the request is non-thinking and
`request.get("tools")` is truthy (a non-empty list); otherwise the field
is set to `None` (JSON null). -/

/-- The configuration values the tools decision reads. -/
structure TransformSettings where
  THINKING_MODEL : String
  GLM_46_THINKING_MODEL : String
  TOOL_SUPPORT : Bool
deriving DecidableEq, Repr

/-- The request fields the tools decision reads: `tools` is `none` for
absent/null and `some l` for a JSON list, whose truthiness is
non-emptiness. -/
structure OAIRequest where
  model : String
  reasoning : Bool
  tools : Option (List String)
deriving DecidableEq, Repr

/-- `is_thinking` (lines 315-317). -/
def is_thinking (s : TransformSettings) (req : OAIRequest) : Bool :=
  req.model == s.THINKING_MODEL || req.model == s.GLM_46_THINKING_MODEL || req.reasoning

/-- Python truthiness of `request.get("tools")`. -/
def toolsTruthy : Option (List String) → Bool
  | some (_ :: _) => true
  | _ => false

/-- `body["tools"]` (lines 420-424). -/
def bodyTools (s : TransformSettings) (req : OAIRequest) : Option (List String) :=
  if s.TOOL_SUPPORT && !is_thinking s req && toolsTruthy req.tools then req.tools
  else none

/-- C10: a thinking request (thinking model or `reasoning` flag) always
gets `tools = null` upstream, even when tools are declared; and the
declared tools are forwarded exactly when tool support is on, the
request is non-thinking and at least one tool is declared. -/
theorem c10_tools_gating (s : TransformSettings) (req : OAIRequest) :
    (is_thinking s req = true → bodyTools s req = none) ∧
    (bodyTools s req ≠ none →
      s.TOOL_SUPPORT = true ∧ is_thinking s req = false ∧
        ∃ l, req.tools = some l ∧ l ≠ []) ∧
    (∀ t ts, s.TOOL_SUPPORT = true → is_thinking s req = false →
      req.tools = some (t :: ts) → bodyTools s req = some (t :: ts)) := by
  refine ⟨?_, ?_, ?_⟩
  · intro h
    simp [bodyTools, h]
  · intro h
    by_cases hts : (s.TOOL_SUPPORT && !is_thinking s req && toolsTruthy req.tools) = true
    · have h1 := hts
      simp only [Bool.and_eq_true, Bool.not_eq_true'] at h1
      refine ⟨h1.1.1, h1.1.2, ?_⟩
      rcases hreq : req.tools with _ | l
      · rw [hreq] at h1
        simp [toolsTruthy] at h1
      · rcases l with _ | ⟨x, xs⟩
        · rw [hreq] at h1
          simp [toolsTruthy] at h1
        · exact ⟨x :: xs, rfl, by simp⟩
    · exact absurd (by simp [bodyTools, hts]) h
  · intro t ts h1 h2 h3
    simp [bodyTools, h1, h2, h3, toolsTruthy]

/-- Witness for C10: with default model names and tool support on, a
thinking-model request declaring a tool gets `tools = null`, while the
same request on the primary model forwards its tool. -/
theorem c10_tools_gating_witness :
    bodyTools ⟨"GLM-4.5-Thinking", "GLM-4.6-Thinking", true⟩
        ⟨"GLM-4.5-Thinking", false, some ["get_weather"]⟩ = none ∧
      bodyTools ⟨"GLM-4.5-Thinking", "GLM-4.6-Thinking", true⟩
        ⟨"GLM-4.5", false, some ["get_weather"]⟩ = some ["get_weather"] :=
  ⟨(c10_tools_gating ⟨"GLM-4.5-Thinking", "GLM-4.6-Thinking", true⟩
      ⟨"GLM-4.5-Thinking", false, some ["get_weather"]⟩).1 (by decide),
    (c10_tools_gating ⟨"GLM-4.5-Thinking", "GLM-4.6-Thinking", true⟩
      ⟨"GLM-4.5", false, some ["get_weather"]⟩).2.2 "get_weather" [] (by decide) (by decide) rfl⟩
